import Mathlib

/-!
# Verification of the Fine-Tuning-DataSet-Generator pipeline

A shallow embedding of the repository's pipeline code
(`src/services/geminiService.ts`, `src/components/Loader.tsx`) and proofs of
the specification's claims about it.

Modelling conventions:
* JavaScript strings are modelled as `List Char` (`Str`).
* JavaScript's builtin `JSON.parse` / `JSON.stringify` are modelled by an
  executable JSON grammar over the inductive `Json` below; JSON numbers are
  modelled as integers (IEEE floating point is out of scope) and the `\uXXXX`
  string escape is not modelled.
* The language-model backend (`fetch` to the Ollama endpoint) is modelled by
  an oracle: each call site receives the outcome of `callOllama` for its
  prompt (a successful response string, an `OllamaConnectionError`, or any
  other thrown error).
* `async`/`await` suspension points are strictly sequential in the source, so
  the pipeline is modelled as ordinary sequential functions; thrown
  exceptions become `Except` values.
-/

/-- JavaScript strings, modelled as lists of characters. -/
abbrev Str := List Char

/-- The whitespace characters recognised by the model (space, tab, line feed,
carriage return) — the whitespace JSON accepts, also used for `trim` and the
`\s` regex class. -/
def isWsChar (c : Char) : Bool :=
  c = ' ' || c = '\t' || c = '\n' || c = '\r'

/-- Drop leading whitespace. -/
def skipWs (cs : Str) : Str := cs.dropWhile isWsChar

/-- JavaScript `String.prototype.trim`: drop whitespace from both ends. -/
def jsTrim (cs : Str) : Str :=
  ((cs.dropWhile isWsChar).reverse.dropWhile isWsChar).reverse

/-- Does `cs` start with `pat`? (Model of an anchored literal regex match.) -/
def startsList : Str → Str → Bool
  | [], _ => true
  | _ :: _, [] => false
  | p :: ps, c :: cs => p = c && startsList ps cs

/-- Does `hay` contain `needle` as a contiguous substring?
(Model of JavaScript `String.prototype.includes`.) -/
def listHasSub (needle : Str) : Str → Bool
  | [] => startsList needle []
  | c :: cs => startsList needle (c :: cs) || listHasSub needle cs

/-- JavaScript `String.prototype.toUpperCase`, for the ASCII range. -/
def jsToUpperChar (c : Char) : Char :=
  if 'a' ≤ c ∧ c ≤ 'z' then Char.ofNat (c.toNat - 32) else c

/-- Uppercase a whole string (ASCII). -/
def jsToUpper (cs : Str) : Str := cs.map jsToUpperChar

/-- `Array.prototype.join(sep)`. -/
def joinSep (sep : Str) (xs : List Str) : Str := sep.intercalate xs

/-- The decimal digit characters `'0'..'9'` (avoids `Char.ofNat` plumbing). -/
def digitChar : Nat → Char
  | 0 => '0' | 1 => '1' | 2 => '2' | 3 => '3' | 4 => '4'
  | 5 => '5' | 6 => '6' | 7 => '7' | 8 => '8' | _ => '9'

/-- Is `c` a decimal digit? -/
def isDigitChar (c : Char) : Bool := 48 ≤ c.toNat && c.toNat ≤ 57

/-- Numeric value of a digit character. -/
def digitVal (c : Char) : Nat := c.toNat - 48

/-- Decimal digits of a natural number, most significant first. -/
def natToChars (n : Nat) : Str :=
  if _h : n < 10 then [digitChar n]
  else natToChars (n / 10) ++ [digitChar (n % 10)]
  decreasing_by exact Nat.div_lt_self (by omega) (by omega)

/-- Decimal rendering of an integer (model of JavaScript number→string for
integral values). -/
def intToChars (i : Int) : Str :=
  if i < 0 then '-' :: natToChars i.natAbs else natToChars i.natAbs

/-- The left-brace character, `'\x7b'`. -/
def lbrace : Char := Char.ofNat 123

/-- The right-brace character, `'\x7d'`. -/
def rbrace : Char := Char.ofNat 125

/-- JSON values, the result type of the model of `JSON.parse`.  Numbers are
modelled as integers (floating point out of scope). -/
inductive Json where
  | null : Json
  | bool : Bool → Json
  | num  : Int → Json
  | str  : Str → Json
  | arr  : List Json → Json
  | obj  : List (Str × Json) → Json

/-- Escape one character for a JSON string literal, as `JSON.stringify` does
for the escapes the model covers. -/
def escChar (c : Char) : Str :=
  if c = '"' then ['\\', '"']
  else if c = '\\' then ['\\', '\\']
  else if c = '\n' then ['\\', 'n']
  else if c = '\t' then ['\\', 't']
  else if c = '\r' then ['\\', 'r']
  else [c]

/-- Escape a whole string for a JSON string literal. -/
def escStr (s : Str) : Str := s.flatMap escChar

mutual
/-- Model of `JSON.stringify` (no indentation: JavaScript's compact form). -/
def serJson : Json → Str
  | .null => "null".data
  | .bool true => "true".data
  | .bool false => "false".data
  | .num i => intToChars i
  | .str s => '"' :: escStr s ++ ['"']
  | .arr xs => '[' :: serArr xs ++ [']']
  | .obj kvs => lbrace :: serObj kvs ++ [rbrace]

/-- Serialise array elements, comma separated. -/
def serArr : List Json → Str
  | [] => []
  | [x] => serJson x
  | x :: y :: xs => serJson x ++ ',' :: serArr (y :: xs)

/-- Serialise object members, comma separated. -/
def serObj : List (Str × Json) → Str
  | [] => []
  | [(k, v)] => '"' :: escStr k ++ '"' :: ':' :: serJson v
  | (k, v) :: m :: kvs =>
      ('"' :: escStr k ++ '"' :: ':' :: serJson v) ++ ',' :: serObj (m :: kvs)
end

mutual
/-- JavaScript string coercion `String(v)` as used by template literals:
strings pass through, numbers render in decimal, arrays join their elements
with commas (`Array.prototype.toString`), objects render as
`[object Object]`. -/
def jsToString : Json → Str
  | .null => "null".data
  | .bool true => "true".data
  | .bool false => "false".data
  | .num i => intToChars i
  | .str s => s
  | .arr xs => joinSep ",".data (jsToStringElems xs)
  | .obj _ => "[object Object]".data

/-- Array elements under `Array.prototype.toString`: `null` renders empty. -/
def jsToStringElems : List Json → List Str
  | [] => []
  | .null :: xs => [] :: jsToStringElems xs
  | x :: xs => jsToString x :: jsToStringElems xs
end

/-- Parse the body of a JSON string literal (after the opening quote), up to
and including the closing quote; returns the unescaped contents and the rest
of the input. -/
def parseStrBody : Str → Option (Str × Str)
  | [] => none
  | c :: r =>
    if c = '"' then some ([], r)
    else if c = '\\' then
      match r with
      | [] => none
      | e :: r2 =>
        let u : Option Char :=
          if e = '"' then some '"'
          else if e = '\\' then some '\\'
          else if e = '/' then some '/'
          else if e = 'n' then some '\n'
          else if e = 't' then some '\t'
          else if e = 'r' then some '\r'
          else if e = 'b' then some (Char.ofNat 8)
          else if e = 'f' then some (Char.ofNat 12)
          else none
        match u with
        | some u' => (parseStrBody r2).map (fun p => (u' :: p.1, p.2))
        | none => none
    else (parseStrBody r).map (fun p => (c :: p.1, p.2))

/-- Read a run of decimal digits left to right into an accumulator. -/
def parseDigitsAcc (acc : Nat) : Str → Nat × Str
  | [] => (acc, [])
  | c :: r =>
    if isDigitChar c then parseDigitsAcc (acc * 10 + digitVal c) r
    else (acc, c :: r)

/-- Parse a nonempty run of decimal digits into a natural number. -/
def parseNat : Str → Option (Nat × Str)
  | [] => none
  | c :: r =>
    if isDigitChar c then some (parseDigitsAcc (digitVal c) r) else none

/-- One fuel level of the model of `JSON.parse`\'s value grammar, defined by
structural recursion on the fuel so that it evaluates by kernel reduction.
At each level the triple is (value parser, array-elements parser,
object-members parser): a value parser that, after optional leading
whitespace, dispatches on the first character; an elements parser reading
one or more comma-separated values up to `]`; a members parser reading one
or more `"key": value` pairs up to the closing brace.  Fuel is spent on
each nesting level and on each further element, so it bounds nesting depth
plus element count, never the input length. -/
def parsers : Nat → (Str → Option (Json × Str)) × (Str → Option (List Json × Str)) ×
    (Str → Option (List (Str × Json) × Str))
  | 0 => (fun _ => none, fun _ => none, fun _ => none)
  | f + 1 =>
    let prev := parsers f
    let pv : Str → Option (Json × Str) := fun cs0 =>
      match skipWs cs0 with
      | [] => none
      | c :: r =>
        if c = '"' then (parseStrBody r).map (fun p => (Json.str p.1, p.2))
        else if c = '[' then
          match skipWs r with
          | d :: r2 =>
            if d = ']' then some (Json.arr [], r2)
            else (prev.2.1 (d :: r2)).map (fun p => (Json.arr p.1, p.2))
          | [] => none
        else if c = lbrace then
          match skipWs r with
          | d :: r2 =>
            if d = rbrace then some (Json.obj [], r2)
            else (prev.2.2 (d :: r2)).map (fun p => (Json.obj p.1, p.2))
          | [] => none
        else if c = '-' then
          (parseNat r).map (fun p => (Json.num (-(p.1 : Int)), p.2))
        else if startsList "null".data (c :: r) then
          some (Json.null, (c :: r).drop 4)
        else if startsList "true".data (c :: r) then
          some (Json.bool true, (c :: r).drop 4)
        else if startsList "false".data (c :: r) then
          some (Json.bool false, (c :: r).drop 5)
        else
          (parseNat (c :: r)).map (fun p => (Json.num (p.1 : Int), p.2))
    let pe : Str → Option (List Json × Str) := fun cs =>
      match pv cs with
      | none => none
      | some (v, r) =>
        match skipWs r with
        | d :: r2 =>
          if d = ',' then (prev.2.1 r2).map (fun p => (v :: p.1, p.2))
          else if d = ']' then some ([v], r2)
          else none
        | [] => none
    let pm : Str → Option (List (Str × Json) × Str) := fun cs =>
      match skipWs cs with
      | c :: r =>
        if c = '"' then
          match parseStrBody r with
          | none => none
          | some (k, r2) =>
            match skipWs r2 with
            | d :: r3 =>
              if d = ':' then
                match pv r3 with
                | none => none
                | some (v, r4) =>
                  match skipWs r4 with
                  | e :: r5 =>
                    if e = ',' then (prev.2.2 r5).map (fun p => ((k, v) :: p.1, p.2))
                    else if e = rbrace then some ([(k, v)], r5)
                    else none
                  | [] => none
              else none
            | [] => none
        else none
      | [] => none
    (pv, pe, pm)

/-- Parse one JSON value (after optional leading whitespace), with the
remaining input. -/
def parseVal (f : Nat) (cs : Str) : Option (Json × Str) := (parsers f).1 cs

/-- Parse one or more comma-separated JSON array elements followed by the
closing bracket. -/
def parseElems (f : Nat) (cs : Str) : Option (List Json × Str) := (parsers f).2.1 cs

/-- Parse one or more comma-separated JSON object members followed by the
closing brace. -/
def parseMembers (f : Nat) (cs : Str) : Option (List (Str × Json) × Str) :=
  (parsers f).2.2 cs

/-- Model of `JSON.parse`: parse a complete JSON value; anything but trailing
whitespace after the value is a parse error.  The fuel `cs.length + 1`
dominates any possible nesting depth of the input. -/
def jsonParse (cs : Str) : Option Json :=
  match parseVal (cs.length + 1) cs with
  | some (v, rest) => if skipWs rest = [] then some v else none
  | none => none

/-- Model of the fence-stripping in `safeJsonParse`
(`src/services/geminiService.ts`): `.replace(/^```json\s*/, '')` then
`.replace(/^```\s*/, '')` then `.replace(/\s*```$/, '')`, applied to the
already-trimmed text. -/
def stripFences (cs : Str) : Str :=
  let fence : Str := ['`', '`', '`']
  let cs1 := if startsList (fence ++ "json".data) cs then skipWs (cs.drop 7) else cs
  let cs2 := if startsList fence cs1 then skipWs (cs1.drop 3) else cs1
  if startsList fence cs2.reverse then
    ((cs2.reverse.drop 3).dropWhile isWsChar).reverse
  else cs2

/-- `safeJsonParse` from `src/services/geminiService.ts`: trim, strip
code-fence markup, `JSON.parse`; on parse failure return an empty array
instead of raising. -/
def safeJsonParse (text : Str) : Json :=
  match jsonParse (stripFences (jsTrim text)) with
  | some v => v
  | none => Json.arr []

/-- The fixed endpoint URL (`OLLAMA_API_URL`). -/
def OLLAMA_API_URL : Str := "http://127.0.0.1:11434/api/generate".data

/-- The fixed model name (`OLLAMA_MODEL`). -/
def OLLAMA_MODEL : Str := "gpt-oss:20b".data

/-- The remediation message carried by the `OllamaConnectionError` that
`callOllama` raises for network-level failures, transcribed from the source
with the `OLLAMA_API_URL`/`OLLAMA_MODEL` interpolations made explicit. -/
def connectionFailedMsg : Str :=
  "Connection Failed: Could not reach Ollama at ".data ++ OLLAMA_API_URL ++
  ".\n\n".data ++
  "POSSIBLE CAUSES & FIXES:\n".data ++
  "1. Ollama is not running.\n".data ++
  "   -> Fix: Start Ollama in your terminal.\n\n".data ++
  "2. CORS is blocking the browser request.\n".data ++
  "   -> Fix: Run one of these commands to allow browser access:\n\n".data ++
  "   Mac/Linux:\n".data ++
  "   OLLAMA_ORIGINS=\"*\" ollama serve\n\n".data ++
  "   Windows (PowerShell):\n".data ++
  "   $env:OLLAMA_ORIGINS=\"*\"; ollama serve\n\n".data ++
  "   Windows (Command Prompt):\n".data ++
  "   set OLLAMA_ORIGINS=* && ollama serve\n\n".data ++
  "3. The model \x27".data ++ OLLAMA_MODEL ++ "\x27 is not pulled.\n".data ++
  "   -> Fix: Run: ollama pull ".data ++ OLLAMA_MODEL

/-- The message of the error thrown when the payload lacks a string
`response` field. -/
def invalidFormatMsg : Str := "Invalid response format from Ollama".data

/-- The observable outcome of the `fetch` call inside `callOllama`:
the network layer fails (`fetch` rejects with a `TypeError`), the body is
not JSON (`response.json()` throws, with a runtime-supplied message), the
server answers with a non-2xx status, or a JSON payload is delivered. -/
inductive FetchOutcome where
  | networkFailure
  | bodyNotJson (msg : Str)
  | httpError (status : Nat) (body : Str)
  | success (data : Json)

/-- The two kinds of error `callOllama` can throw: an
`OllamaConnectionError` (distinct class, actionable message) or a plain
`Error`. -/
inductive CallErr where
  | conn (msg : Str)
  | generic (msg : Str)
deriving DecidableEq

/-- The `catch` block of `callOllama`: a caught error that is a `TypeError`,
or whose message contains `"fetch"` or `"Network"`, is treated as a network
error and re-thrown as an `OllamaConnectionError`; everything else is
wrapped in a plain `Error` with a `Failed to connect to Ollama: ` prefix.
(A caught `OllamaConnectionError` is re-thrown as-is, but `callOllama`
itself never throws one inside its `try`.) -/
def classifyCaught (isTypeError : Bool) (msg : Str) : CallErr :=
  if isTypeError || listHasSub "fetch".data msg || listHasSub "Network".data msg then
    .conn connectionFailedMsg
  else
    .generic ("Failed to connect to Ollama: ".data ++ msg)

/-- Field access `data.response` on a parsed JSON value: defined only when
`data` is an object; with duplicate keys the last occurrence wins, as in a
JavaScript object literal. -/
def jsonField (data : Json) (key : Str) : Option Json :=
  match data with
  | .obj kvs => (kvs.reverse.find? (fun kv => kv.1 = key)).map (·.2)
  | _ => none

/-- `callOllama` from `src/services/geminiService.ts`, as a function of the
fetch outcome.  A non-ok status raises `Ollama API Error (status): body`; a
payload without a string `response` field raises
`Invalid response format from Ollama`; both are routed through the `catch`
block's classification.  On success the `response` field is returned
unmodified. -/
def callOllama (outcome : FetchOutcome) : Except CallErr Str :=
  match outcome with
  | .networkFailure => .error (classifyCaught true "Failed to fetch".data)
  | .bodyNotJson msg => .error (classifyCaught false msg)
  | .httpError status body =>
      .error (classifyCaught false
        ("Ollama API Error (".data ++ natToChars status ++ "): ".data ++ body))
  | .success data =>
      match jsonField data "response".data with
      | some (.str s) => .ok s
      | _ => .error (classifyCaught false invalidFormatMsg)

/-- What one `callOllama` invocation looks like to its callers: a response
string, a thrown `OllamaConnectionError` (with its message), or any other
thrown error. -/
inductive LMResult where
  | ok (response : Str)
  | connErr (msg : Str)
  | otherErr (msg : Str)

/-- The language-model backend as seen by the pipeline: the outcome of
`callOllama` for each prompt.  (The source issues calls strictly
sequentially; a deterministic per-prompt oracle captures every such run.) -/
abbrev LMOracle := Str → LMResult

/-- The outcome of a `callOllama` invocation, as an `LMResult`. -/
def lmOutcome (r : Except CallErr Str) : LMResult :=
  match r with
  | .ok s => .ok s
  | .error (.conn msg) => .connErr msg
  | .error (.generic msg) => .otherErr msg

/-- The per-page prompt of `extractSectionsFromDocument`, transcribed from
the template literal in the source. -/
def extractSectionPrompt (page : Str) : Str :=
  "\n      Analyze the following page of a document. Identify and extract all distinct, self-contained logical sections or requirements from this text.\n      Return a valid JSON array of strings, where each string is the exact text of a section you found.\n      If no complete sections are found on this page, return an empty array [].\n\n      Document Page:\n      ---\n      ".data
  ++ page ++ "\n      ---\n    ".data

/-- The elements a page contributes to `allSections`: the parsed response if
it is array-shaped (`Array.isArray`), nothing otherwise. -/
def pageSections (responseText : Str) : List Json :=
  match safeJsonParse responseText with
  | .arr xs => xs
  | _ => []

/-- `extractSectionsFromDocument`, instrumented with the number of
`callOllama` invocations actually made.  Per page: a successful call
contributes `pageSections`; a caught non-connection error contributes
nothing and the loop continues; an `OllamaConnectionError` is re-thrown at
once, ending the loop. -/
def extractSectionsRun (oracle : LMOracle) : List Str → Except Str (List Json) × Nat
  | [] => (.ok [], 0)
  | page :: rest =>
    match oracle (extractSectionPrompt page) with
    | .connErr msg => (.error msg, 1)
    | .otherErr _ =>
        let (r, n) := extractSectionsRun oracle rest
        (r, n + 1)
    | .ok responseText =>
        let (r, n) := extractSectionsRun oracle rest
        (r.map (fun sections => pageSections responseText ++ sections), n + 1)

/-- `extractSectionsFromDocument` from `src/services/geminiService.ts`:
the accumulated section list, or the propagated `OllamaConnectionError`
message. -/
def extractSectionsFromDocument (oracle : LMOracle) (documentPages : List Str) :
    Except Str (List Json) :=
  (extractSectionsRun oracle documentPages).1

/-- The per-page relevance prompt of `findMatchingSection`, transcribed from
the template literal in the source. -/
def relevancePrompt (rfpSection page : Str) : Str :=
  "\n      RFP Requirement: \"".data ++ rfpSection ++
  "\"\n      \n      Proposal Text Snippet: \"".data ++ page ++
  "\"\n      \n      Does the Proposal Text Snippet likely contain the specific answer to the RFP Requirement?\n      Respond with only \"YES\" or \"NO\".\n    ".data

/-- The final extraction prompt of `findMatchingSection`, transcribed from
the template literal in the source. -/
def finalExtractionPrompt (rfpSection combinedRelevantText : Str) : Str :=
  "\n    You will be given a specific requirement from an RFP and a block of relevant text from a proposal.\n    Your task is to extract the single, complete, and exact section from the proposal text that directly answers the RFP requirement.\n    Return only the text of the proposal section, with no extra commentary.\n\n    RFP Requirement:\n    ---\n    ".data
  ++ rfpSection ++
  "\n    ---\n\n    Relevant Proposal Text:\n    ---\n    ".data
  ++ combinedRelevantText ++ "\n    ---\n  ".data

/-- The relevance test applied to a response:
`responseText.trim().toUpperCase().includes('YES')`. -/
def isRelevantResponse (responseText : Str) : Bool :=
  listHasSub "YES".data (jsToUpper (jsTrim responseText))

/-- The relevance loop of `findMatchingSection`, instrumented with the call
count: each page whose response passes `isRelevantResponse` is pushed onto
`relevantPages`; a caught non-connection error skips the page; an
`OllamaConnectionError` is re-thrown at once. -/
def relevanceRun (oracle : LMOracle) (rfpSection : Str) :
    List Str → Except Str (List Str) × Nat
  | [] => (.ok [], 0)
  | page :: rest =>
    match oracle (relevancePrompt rfpSection page) with
    | .connErr msg => (.error msg, 1)
    | .otherErr _ =>
        let (r, n) := relevanceRun oracle rfpSection rest
        (r, n + 1)
    | .ok responseText =>
        let (r, n) := relevanceRun oracle rfpSection rest
        (r.map (fun rel => if isRelevantResponse responseText then page :: rel else rel),
         n + 1)

/-- The separator used to join relevant pages:
`relevantPages.join('\n\n---\n\n')`. -/
def relevantSeparator : Str := "\n\n---\n\n".data

/-- `findMatchingSection`, instrumented with the number of `callOllama`
invocations: the relevance loop, then — only if some page was judged
relevant — one extraction call whose trimmed response is the match
(`null` when empty); a non-connection error during extraction yields
`null`; an `OllamaConnectionError` propagates. -/
def findMatchingSectionRun (oracle : LMOracle) (rfpSection : Str)
    (proposalPages : List Str) : Except Str (Option Str) × Nat :=
  match relevanceRun oracle rfpSection proposalPages with
  | (.error msg, n) => (.error msg, n)
  | (.ok relevantPages, n) =>
    if relevantPages.isEmpty then (.ok none, n)
    else
      let combinedRelevantText := joinSep relevantSeparator relevantPages
      match oracle (finalExtractionPrompt rfpSection combinedRelevantText) with
      | .connErr msg => (.error msg, n + 1)
      | .otherErr _ => (.ok none, n + 1)
      | .ok responseText =>
          let t := jsTrim responseText
          (.ok (if t.isEmpty then none else some t), n + 1)

/-- `findMatchingSection` from `src/services/geminiService.ts`. -/
def findMatchingSection (oracle : LMOracle) (rfpSection : Str)
    (proposalPages : List Str) : Except Str (Option Str) :=
  (findMatchingSectionRun oracle rfpSection proposalPages).1

/-- JavaScript `String.prototype.substring(a, b)`: both indices are clamped
into `[0, length]` and swapped if out of order. -/
def jsSubstring (t : Str) (a b : Int) : Str :=
  let len : Int := t.length
  let a' := min (max a 0) len
  let b' := min (max b 0) len
  (t.take (max a' b').toNat).drop (min a' b').toNat

/-- The loop of `textToPages` (`src/components/Loader.tsx`), step-indexed:
`for (let i = 0; i < text.length; i += chunkSize) pages.push(text.substring(i, i + chunkSize))`.
`none` means the fuel ran out before the loop finished — enough fuel exists
exactly when the JavaScript loop terminates. -/
def textToPagesGo (text : Str) (chunkSize : Int) : Int → Nat → Option (List Str)
  | _, 0 => none
  | i, fuel + 1 =>
    if i < (text.length : Int) then
      match textToPagesGo text chunkSize (i + chunkSize) fuel with
      | some rest => some (jsSubstring text i (i + chunkSize) :: rest)
      | none => none
    else some []

/-- `textToPages` with fuel `text.length + 1`, which suffices whenever the
source loop terminates (the index advances by at least one per iteration
when `chunkSize ≥ 1`). -/
def textToPages (text : Str) (chunkSize : Int) : Option (List Str) :=
  textToPagesGo text chunkSize 0 (text.length + 1)

/-- `PAGE_CHUNK_SIZE` from `src/components/Loader.tsx`. -/
def PAGE_CHUNK_SIZE : Int := 10000

/-- A decoded file: `{ name, content }`.  The decoders (`readFileContent`)
are external collaborators per the spec; the pipeline is modelled on
already-decoded contents. -/
structure FileContent where
  name : Str
  content : Str

/-- A `DocumentPair` row of the upload table, with its files already
decoded: one-or-more RFP files and at most one Proposal file. -/
structure DocumentPair where
  id : Int
  rfp : List FileContent
  proposal : Option FileContent

/-- `completedPairs`: `documentPairs.filter(p => p.rfp.length > 0 && p.proposal)`. -/
def completedPairs (documentPairs : List DocumentPair) : List DocumentPair :=
  documentPairs.filter (fun p => decide (0 < p.rfp.length) && p.proposal.isSome)

/-- `combinedRfpContent`:
`rfpContents.map(c => \`--- RFP File: ${c.name} ---\n${c.content}\`).join('\n\n')`. -/
def combinedRfpContent (rfpContents : List FileContent) : Str :=
  joinSep "\n\n".data
    (rfpContents.map (fun c =>
      "--- RFP File: ".data ++ c.name ++ " ---\n".data ++ c.content))

/-- `textToPages` as the orchestrator uses it (its chunk size is positive,
so the loop terminates and the fuelled model returns `some`). -/
def textToPagesTotal (text : Str) (chunkSize : Int) : List Str :=
  (textToPages text chunkSize).getD []

/-- The per-section matching loop of `handleGenerateJsonl`: for each
extracted RFP section, run the matcher over the proposal pages and keep a
`{rfp_section, proposal_section}` chunk only when a match was found. -/
def processSectionsRun (oracle : LMOracle) (proposalPages : List Str) :
    List Json → Except Str (List (Json × Str)) × Nat
  | [] => (.ok [], 0)
  | sec :: rest =>
    match findMatchingSectionRun oracle (jsToString sec) proposalPages with
    | (.error msg, n) => (.error msg, n)
    | (.ok m, n) =>
      let (r, n2) := processSectionsRun oracle proposalPages rest
      (r.map (fun chunks =>
        match m with
        | some proposalSection => (sec, proposalSection) :: chunks
        | none => chunks), n + n2)

/-- Processing of one complete pair inside `handleGenerateJsonl`: paginate
the combined RFP text and the proposal content, extract RFP sections, and —
unless none were found, in which case the pair is skipped — match each
section against the proposal pages. -/
def processPairRun (oracle : LMOracle) (pair : DocumentPair) :
    Except Str (List (Json × Str)) × Nat :=
  match pair.proposal with
  | none => (.ok [], 0)
  | some proposalContent =>
    let rfpPages := textToPagesTotal (combinedRfpContent pair.rfp) PAGE_CHUNK_SIZE
    let proposalPages := textToPagesTotal proposalContent.content PAGE_CHUNK_SIZE
    match extractSectionsRun oracle rfpPages with
    | (.error msg, n) => (.error msg, n)
    | (.ok rfpSections, n) =>
      if rfpSections.isEmpty then (.ok [], n)
      else
        let (r, n2) := processSectionsRun oracle proposalPages rfpSections
        (r, n + n2)

/-- The pair loop of `handleGenerateJsonl`, accumulating `allFinalChunks`;
a propagated `OllamaConnectionError` ends the loop. -/
def runPairsRun (oracle : LMOracle) :
    List DocumentPair → Except Str (List (Json × Str)) × Nat
  | [] => (.ok [], 0)
  | pair :: rest =>
    match processPairRun oracle pair with
    | (.error msg, n) => (.error msg, n)
    | (.ok chunks, n) =>
      let (r, n2) := runPairsRun oracle rest
      (r.map (fun more => chunks ++ more), n + n2)

/-- The user-role content of one training record:
`Write a proposal section based on this RFP section:\n\n` followed by the
section (template-literal coercion for a non-string section value). -/
def userContent (rfpSection : Json) : Str :=
  "Write a proposal section based on this RFP section:\n\n".data
  ++ jsToString rfpSection

/-- The object serialised for one chunk:
`{messages: [{role: "user", content: ...}, {role: "assistant", content: ...}]}`. -/
def entryJson (chunk : Json × Str) : Json :=
  Json.obj [("messages".data, Json.arr
    [ Json.obj [("role".data, Json.str "user".data),
                ("content".data, Json.str (userContent chunk.1))]
    , Json.obj [("role".data, Json.str "assistant".data),
                ("content".data, Json.str chunk.2)] ])]

/-- The emitted dataset: `allFinalChunks.map(JSON.stringify ∘ entry).join('\n')`. -/
def emitJsonl (allFinalChunks : List (Json × Str)) : Str :=
  joinSep "\n".data (allFinalChunks.map (fun chunk => serJson (entryJson chunk)))

/-- The error message shown when no complete pair exists. -/
def noPairsMsg : Str :=
  "Please provide at least one complete RFP and Proposal pair.".data

/-- The error message shown when processing produced no chunks. -/
def noSectionsMsg : Str :=
  "The AI model could not extract any valid sections from your documents. Please check the document content and try again.".data

/-- The observable outcome of one `handleGenerateJsonl` run: an error
message (`setError`), or the generated JSONL blob with its entry count. -/
inductive RunOutcome where
  | failed (errorMessage : Str)
  | success (jsonl : Str) (entries : Nat)

/-- `handleGenerateJsonl` from `src/components/Loader.tsx`, instrumented
with the total number of `callOllama` invocations: incomplete pairs are
filtered out up front; zero complete pairs or zero accumulated chunks are
reported as errors; a propagated `OllamaConnectionError` surfaces its
message; otherwise the JSONL blob is produced. -/
def handleGenerateJsonl (oracle : LMOracle) (documentPairs : List DocumentPair) :
    RunOutcome × Nat :=
  let cps := completedPairs documentPairs
  if cps.isEmpty then (.failed noPairsMsg, 0)
  else
    match runPairsRun oracle cps with
    | (.error msg, n) => (.failed msg, n)
    | (.ok allFinalChunks, n) =>
      if allFinalChunks.isEmpty then (.failed noSectionsMsg, n)
      else (.success (emitJsonl allFinalChunks) allFinalChunks.length, n)

mutual
/-- Fuel sufficient for `parseVal` to parse the serialisation of a value:
one unit per nesting level plus one per element, matching where the parser
spends fuel. -/
def jfuel : Json → Nat
  | .null => 1
  | .bool _ => 1
  | .num _ => 1
  | .str _ => 1
  | .arr xs => 1 + jfuelElems xs
  | .obj kvs => 1 + jfuelMembers kvs

/-- Fuel sufficient for `parseElems` on the listed elements. -/
def jfuelElems : List Json → Nat
  | [] => 0
  | x :: xs => jfuel x + 1 + jfuelElems xs

/-- Fuel sufficient for `parseMembers` on the listed members. -/
def jfuelMembers : List (Str × Json) → Nat
  | [] => 0
  | kv :: kvs => jfuel kv.2 + 1 + jfuelMembers kvs
end

/-- Whether an `LMResult` makes the relevance loop push the page:
a successful response passing `isRelevantResponse`; errors never do. -/
def judgedRelevant : LMResult → Bool
  | .ok responseText => isRelevantResponse responseText
  | _ => false

/-- A model response wrapped in markdown code-fence markers, the shape
`safeJsonParse` is built to tolerate. -/
def fenceWrapped (t : Str) : Str :=
  "```json\n".data ++ t ++ "\n```".data

/-- A backend whose every call throws a non-connection error. -/
def oracleOther : LMOracle := fun _ => .otherErr "boom".data

/-- A backend whose every call throws an `OllamaConnectionError`. -/
def oracleConn : LMOracle := fun _ => .connErr "down".data

/-- A backend whose every call answers with a JSON array of numbers. -/
def oracleNums : LMOracle := fun _ => .ok "[1, 2]".data

/-- A backend whose every call answers `NO`. -/
def oracleNo : LMOracle := fun _ => .ok "NO".data

/-- A backend that answers `YES` to relevance prompts (which begin with a
newline and six spaces) and whitespace to anything else — in particular to
the final extraction prompt (which begins with a newline and four
spaces). -/
def oracleYesThenBlank : LMOracle := fun prompt =>
  if startsList "\n      ".data prompt then .ok "YES".data else .ok "  ".data

/-- The characters that may legitimately follow a serialised JSON value
inside a larger serialisation: a separator or a closing bracket/brace. -/
def stopChar (c : Char) : Bool := c = ',' || c = ']' || c = rbrace

/-- Whether the input after a serialised value starts with a stop character
(or is exhausted) — the side condition making number parsing
unambiguous. -/
def stopperB : Str → Bool
  | [] => true
  | c :: _ => stopChar c

/-! ## Claim C2 -/

/-- **C2, counterexample.** The claim says a success-status payload missing
the `response` string field makes `callOllama` raise an
`OllamaConnectionError`.  On the code it does not: the thrown
`Invalid response format from Ollama` error is not a `TypeError` and its
message contains neither `fetch` nor `Network`, so the `catch` block wraps
it in a plain generic `Error` — a different constructor than `CallErr.conn`. -/
theorem callOllama_missing_field_counterexample :
    callOllama (.success (Json.obj [])) =
      .error (.generic ("Failed to connect to Ollama: ".data ++ invalidFormatMsg)) := rfl

/-- **C2, amended.** When the backend is reachable and returns a success
status but the payload has no string `response` field, `callOllama` raises a
*generic* error (`Failed to connect to Ollama: Invalid response format from
Ollama`), not the `OllamaConnectionError` used when the endpoint could not
be reached (shown for contrast on a network failure). -/
theorem callOllama_missing_field_generic :
    (∀ data : Json, (∀ s, jsonField data "response".data ≠ some (.str s)) →
      callOllama (.success data) =
        .error (.generic ("Failed to connect to Ollama: ".data ++ invalidFormatMsg))) ∧
    callOllama .networkFailure = .error (.conn connectionFailedMsg) := by
  refine ⟨fun data h => ?_, rfl⟩
  cases hf : jsonField data "response".data with
  | none => simp only [callOllama, hf]; rfl
  | some v =>
    cases v with
    | str s => exact absurd hf (h s)
    | null => simp only [callOllama, hf]; rfl
    | bool b => simp only [callOllama, hf]; rfl
    | num i => simp only [callOllama, hf]; rfl
    | arr xs => simp only [callOllama, hf]; rfl
    | obj kvs => simp only [callOllama, hf]; rfl

/-- Witness for `callOllama_missing_field_generic`: a concrete payload with
a `model` field but no `response` field. -/
theorem callOllama_missing_field_generic_witness :
    callOllama (.success (Json.obj [("model".data, Json.str "x".data)])) =
      .error (.generic ("Failed to connect to Ollama: ".data ++ invalidFormatMsg)) :=
  callOllama_missing_field_generic.1 (Json.obj [("model".data, Json.str "x".data)])
    (fun _ h => Option.noConfusion h)

/-! ## Claim C6 -/

/-- **C6.** In the relevance phase, as long as no call throws an
`OllamaConnectionError`, the pages collected as relevant are exactly those
whose response, trimmed and compared case-insensitively, contains the
substring `YES` (`judgedRelevant`, i.e.
`responseText.trim().toUpperCase().includes('YES')`); and the response
`YESTERDAY I read this, the answer is NO` is classified relevant. -/
theorem relevance_is_trimmed_upper_includes_yes :
    (∀ (oracle : LMOracle) (rfpSection : Str) (pages : List Str),
        (∀ p ∈ pages, ∀ m, oracle (relevancePrompt rfpSection p) ≠ .connErr m) →
        (relevanceRun oracle rfpSection pages).1 =
          .ok (pages.filter (fun p => judgedRelevant (oracle (relevancePrompt rfpSection p))))) ∧
    isRelevantResponse "YESTERDAY I read this, the answer is NO".data = true := by
  refine ⟨fun oracle sec pages h => ?_, by decide⟩
  induction pages with
  | nil => rfl
  | cons p ps ih =>
    have hp := h p (List.mem_cons_self p ps)
    have ih' := ih (fun q hq => h q (List.mem_cons_of_mem p hq))
    rcases hrr : relevanceRun oracle sec ps with ⟨r, n⟩
    rw [hrr] at ih'
    cases ho : oracle (relevancePrompt sec p) with
    | connErr m => exact absurd ho (hp m)
    | otherErr m =>
      simp only [relevanceRun, ho, hrr, List.filter_cons, judgedRelevant,
        Bool.false_eq_true, if_false]
      exact ih'
    | ok responseText =>
      dsimp only at ih'
      simp only [relevanceRun, ho, hrr, List.filter_cons, judgedRelevant, ih']
      by_cases hrel : isRelevantResponse responseText
      · simp [hrel, Except.map]
      · simp [hrel, Except.map]

/-- Witness for `relevance_is_trimmed_upper_includes_yes`: a one-page run
whose only response is `NO`, collecting no relevant pages. -/
theorem relevance_is_trimmed_upper_includes_yes_witness :
    (relevanceRun oracleNo "req".data ["page".data]).1 = .ok [] :=
  relevance_is_trimmed_upper_includes_yes.1 oracleNo "req".data ["page".data]
    (fun _ _ _ h => LMResult.noConfusion h)

/-! ## Claim C1 -/

/-- **C1.** During section extraction, a page whose call throws a
non-connection error contributes nothing and processing continues — the run
equals the run without that page; a page whose call throws an
`OllamaConnectionError` makes the error propagate at once: provided no
earlier page threw one, the run stops in the error state after exactly the
calls for the earlier pages plus this one, regardless of how many pages
follow. -/
theorem extract_fault_isolation :
    (∀ (oracle : LMOracle) (pre : List Str) (page : Str) (post : List Str) (m : Str),
        oracle (extractSectionPrompt page) = .otherErr m →
        extractSectionsFromDocument oracle (pre ++ page :: post) =
          extractSectionsFromDocument oracle (pre ++ post)) ∧
    (∀ (oracle : LMOracle) (pre : List Str) (page : Str) (post : List Str) (m : Str),
        oracle (extractSectionPrompt page) = .connErr m →
        (∀ q ∈ pre, ∀ m', oracle (extractSectionPrompt q) ≠ .connErr m') →
        extractSectionsRun oracle (pre ++ page :: post) = (.error m, pre.length + 1)) := by
  constructor
  · intro oracle pre page post m h
    induction pre with
    | nil =>
      rcases hr : extractSectionsRun oracle post with ⟨r, n⟩
      simp [extractSectionsFromDocument, extractSectionsRun, h, hr]
    | cons q pre ih =>
      cases hq : oracle (extractSectionPrompt q) with
      | connErr m' =>
        simp [extractSectionsFromDocument, extractSectionsRun, hq]
      | otherErr m' =>
        rcases h1 : extractSectionsRun oracle (pre ++ page :: post) with ⟨r1, n1⟩
        rcases h2 : extractSectionsRun oracle (pre ++ post) with ⟨r2, n2⟩
        simp only [extractSectionsFromDocument, h1, h2] at ih
        simp [extractSectionsFromDocument, extractSectionsRun, hq, h1, h2, ih]
      | ok s =>
        rcases h1 : extractSectionsRun oracle (pre ++ page :: post) with ⟨r1, n1⟩
        rcases h2 : extractSectionsRun oracle (pre ++ post) with ⟨r2, n2⟩
        simp only [extractSectionsFromDocument, h1, h2] at ih
        simp [extractSectionsFromDocument, extractSectionsRun, hq, h1, h2, ih]
  · intro oracle pre page post m h h2
    induction pre with
    | nil => simp [extractSectionsRun, h]
    | cons q pre ih =>
      have hq' : ∀ m', oracle (extractSectionPrompt q) ≠ .connErr m' :=
        h2 q (List.mem_cons_self q pre)
      have ih' := ih (fun q' hq'' => h2 q' (List.mem_cons_of_mem q hq''))
      cases hq : oracle (extractSectionPrompt q) with
      | connErr m' => exact absurd hq (hq' m')
      | otherErr m' =>
        simp [extractSectionsRun, hq, ih']
      | ok s =>
        simp [extractSectionsRun, hq, ih', Except.map]

/-- Witness for `extract_fault_isolation`: a one-page document whose single
call fails with a non-connection error (left), resp. an
`OllamaConnectionError` (right). -/
theorem extract_fault_isolation_witness :
    (extractSectionsFromDocument oracleOther ["p".data] =
      extractSectionsFromDocument oracleOther []) ∧
    extractSectionsRun oracleConn ["p".data] = (.error "down".data, 1) :=
  ⟨extract_fault_isolation.1 oracleOther [] "p".data [] "boom".data rfl,
   extract_fault_isolation.2 oracleConn [] "p".data [] "down".data rfl
     (fun q hq => absurd hq (List.not_mem_nil q))⟩

/-! ## Claim C3 -/

/-- Helper: as long as no relevance call throws an
`OllamaConnectionError`, the relevance loop issues exactly one call per page
and collects exactly the pages passing `judgedRelevant`. -/
theorem relevanceRun_no_conn (oracle : LMOracle) (rfpSection : Str) :
    ∀ pages : List Str,
      (∀ p ∈ pages, ∀ m, oracle (relevancePrompt rfpSection p) ≠ .connErr m) →
      relevanceRun oracle rfpSection pages =
        (.ok (pages.filter (fun p => judgedRelevant (oracle (relevancePrompt rfpSection p)))),
         pages.length) := by
  intro pages h
  induction pages with
  | nil => rfl
  | cons p ps ih =>
    have hp := h p (List.mem_cons_self p ps)
    have ih' := ih (fun q hq => h q (List.mem_cons_of_mem p hq))
    cases ho : oracle (relevancePrompt rfpSection p) with
    | connErr m => exact absurd ho (hp m)
    | otherErr m =>
      simp [relevanceRun, ho, ih', List.filter_cons, judgedRelevant]
    | ok responseText =>
      simp only [relevanceRun, ho, ih', List.filter_cons, judgedRelevant]
      by_cases hrel : isRelevantResponse responseText
      · simp [hrel, Except.map]
      · simp [hrel, Except.map]

/-- **C3.** If every relevance call completes without an
`OllamaConnectionError` and no page is judged relevant, the matcher returns
absent having made exactly one call per proposal page — the extraction call
was never issued; and whenever the relevance phase produced a nonempty
relevant set and the extraction call's trimmed response is empty, the
result is likewise absent. -/
theorem matcher_absent_cases :
    (∀ (oracle : LMOracle) (rfpSection : Str) (pages : List Str),
        (∀ p ∈ pages, (∀ m, oracle (relevancePrompt rfpSection p) ≠ .connErr m) ∧
            judgedRelevant (oracle (relevancePrompt rfpSection p)) = false) →
        findMatchingSectionRun oracle rfpSection pages = (.ok none, pages.length)) ∧
    (∀ (oracle : LMOracle) (rfpSection : Str) (pages : List Str) (rel : List Str)
        (n : Nat) (s : Str),
        relevanceRun oracle rfpSection pages = (.ok rel, n) → rel ≠ [] →
        oracle (finalExtractionPrompt rfpSection (joinSep relevantSeparator rel)) = .ok s →
        jsTrim s = [] →
        findMatchingSection oracle rfpSection pages = .ok none) := by
  constructor
  · intro oracle rfpSection pages h
    have hrel := relevanceRun_no_conn oracle rfpSection pages (fun p hp => (h p hp).1)
    have hfil : pages.filter
        (fun p => judgedRelevant (oracle (relevancePrompt rfpSection p))) = [] := by
      rw [List.filter_eq_nil_iff]
      intro p hp
      simp [(h p hp).2]
    rw [hfil] at hrel
    simp [findMatchingSectionRun, hrel]
  · intro oracle rfpSection pages rel n s hrel hne hok htrim
    simp [findMatchingSection, findMatchingSectionRun, hrel, hne, hok, htrim]

/-- Witness for `matcher_absent_cases`: a one-page proposal whose relevance
answer is `NO` (left); a one-page proposal judged relevant whose extraction
response is whitespace (right). -/
theorem matcher_absent_cases_witness :
    findMatchingSectionRun oracleNo "req".data ["page".data] = (.ok none, 1) ∧
    findMatchingSection oracleYesThenBlank "req".data ["page".data] = .ok none :=
  ⟨matcher_absent_cases.1 oracleNo "req".data ["page".data]
     (fun p hp => ⟨fun _ h => LMResult.noConfusion h, rfl⟩),
   matcher_absent_cases.2 oracleYesThenBlank "req".data ["page".data] ["page".data] 1
     "  ".data rfl (by simp) rfl rfl⟩

/-! ## Claim C10 -/

/-- **C10.** A page whose call succeeds with an array-shaped parsed response
contributes exactly those elements, unchanged and in order, to the section
list — there is no validation that they are strings: the concrete backend
answering `[1, 2]` yields a section list containing the numbers 1 and 2. -/
theorem extract_appends_elements_unvalidated :
    (∀ (oracle : LMOracle) (page : Str) (rest : List Str) (s : Str) (xs : List Json),
        oracle (extractSectionPrompt page) = .ok s →
        safeJsonParse s = .arr xs →
        extractSectionsFromDocument oracle (page :: rest) =
          (extractSectionsFromDocument oracle rest).map (fun secs => xs ++ secs)) ∧
    extractSectionsFromDocument oracleNums ["page".data] = .ok [Json.num 1, Json.num 2] := by
  constructor
  · intro oracle page rest s xs h hparse
    rcases hr : extractSectionsRun oracle rest with ⟨r, n⟩
    simp [extractSectionsFromDocument, extractSectionsRun, h, hr, pageSections, hparse]
  · rfl

/-- Witness for `extract_appends_elements_unvalidated`: the general clause
applied to the concrete `[1, 2]` backend. -/
theorem extract_appends_elements_unvalidated_witness :
    extractSectionsFromDocument oracleNums ["page".data] =
      (extractSectionsFromDocument oracleNums []).map
        (fun secs => [Json.num 1, Json.num 2] ++ secs) :=
  extract_appends_elements_unvalidated.1 oracleNums "page".data [] "[1, 2]".data
    [Json.num 1, Json.num 2] rfl rfl

/-! ## Claim C7 -/

/-- Helper: an incomplete pair is removed by the `completedPairs` filter. -/
theorem completedPairs_drop_incomplete (pre post : List DocumentPair)
    (p : DocumentPair) (h : p.rfp = [] ∨ p.proposal = none) :
    completedPairs (pre ++ p :: post) = completedPairs (pre ++ post) := by
  have hc : (decide (0 < p.rfp.length) && p.proposal.isSome) = false := by
    rcases h with h | h <;> simp [h]
  simp [completedPairs, List.filter_append, List.filter_cons, hc]

/-- **C7.** A `DocumentPair` that is not complete (no RFP files, or no
Proposal file) is excluded before the loop begins: the whole run — outcome,
records and total number of language-model calls — equals the run on the
input without that pair. -/
theorem incomplete_pair_excluded :
    ∀ (oracle : LMOracle) (pre post : List DocumentPair) (p : DocumentPair),
      p.rfp = [] ∨ p.proposal = none →
      handleGenerateJsonl oracle (pre ++ p :: post) =
        handleGenerateJsonl oracle (pre ++ post) := by
  intro oracle pre post p h
  simp only [handleGenerateJsonl, completedPairs_drop_incomplete pre post p h]

/-- Witness for `incomplete_pair_excluded`: a pair holding an RFP file but
no Proposal file contributes nothing. -/
theorem incomplete_pair_excluded_witness :
    handleGenerateJsonl oracleNo
        [⟨1, [⟨"rfp.txt".data, "text".data⟩], none⟩] =
      handleGenerateJsonl oracleNo [] :=
  incomplete_pair_excluded oracleNo [] []
    ⟨1, [⟨"rfp.txt".data, "text".data⟩], none⟩ (Or.inr rfl)

/-! ## Claims C4 and C9 -/

/-- Helper: for natural indices, `text.substring(i, i + c)` is
`(text.drop i).take c`. -/
theorem jsSubstring_nat (t : Str) (i c : Nat) :
    jsSubstring t (i : Int) ((i : Int) + (c : Int)) = (t.drop i).take c := by
  simp only [jsSubstring]
  rw [max_eq_left (Int.natCast_nonneg i),
      max_eq_left (add_nonneg (Int.natCast_nonneg i) (Int.natCast_nonneg c))]
  by_cases hi : i ≤ t.length
  · have hA : min (i : Int) (t.length : Int) = (i : Int) :=
      min_eq_left (by exact_mod_cast hi)
    have hAB : (i : Int) ≤ min ((i : Int) + (c : Int)) (t.length : Int) :=
      le_min (by omega) (by exact_mod_cast hi)
    rw [hA, min_eq_left hAB, max_eq_right hAB]
    have hb : min ((i : Int) + (c : Int)) (t.length : Int) =
        ((min (i + c) t.length : Nat) : Int) := by push_cast; ring_nf
    rw [hb, Int.toNat_natCast, Int.toNat_natCast, List.drop_take,
        List.take_eq_take.mpr]
    rw [List.length_drop]
    omega
  · have hlen : (t.length : Int) ≤ (i : Int) := by exact_mod_cast le_of_not_le hi
    have hA : min (i : Int) (t.length : Int) = (t.length : Int) := min_eq_right hlen
    have hB : min ((i : Int) + (c : Int)) (t.length : Int) = (t.length : Int) :=
      min_eq_right (by omega)
    rw [hA, hB, min_self, max_self, Int.toNat_natCast, List.take_length,
        List.drop_length, List.drop_eq_nil_of_le (le_of_not_le hi), List.take_nil]

/-- Helper: with positive chunk size and fuel exceeding the characters left,
the `textToPages` loop from index `i` completes and returns chunks whose
concatenation is the remaining text, all but the last of length exactly
`c`. -/
theorem textToPagesGo_spec (c : Nat) (hc : 0 < c) :
    ∀ (fuel i : Nat) (t : Str), t.length - i < fuel →
      ∃ ps, textToPagesGo t (c : Int) (i : Int) fuel = some ps ∧
        ps.flatten = t.drop i ∧
        (ps = [] ↔ t.length ≤ i) ∧
        (∀ p ∈ ps.dropLast, p.length = c) := by
  intro fuel
  induction fuel with
  | zero => intro i t h; omega
  | succ fuel ih =>
    intro i t h
    by_cases hlt : (i : Int) < (t.length : Int)
    · have hlt' : i < t.length := by exact_mod_cast hlt
      obtain ⟨ps, hps, hjoin, hempty, hlen⟩ := ih (i + c) t (by omega)
      have hcast : (i : Int) + (c : Int) = ((i + c : Nat) : Int) := by push_cast; ring
      refine ⟨jsSubstring t (i : Int) ((i : Int) + (c : Int)) :: ps, ?_, ?_, ?_, ?_⟩
      · simp only [textToPagesGo, hlt, if_true, hcast, hps]
      · rw [List.flatten_cons, jsSubstring_nat, hjoin, ← List.drop_drop c i t,
            List.take_append_drop]
      · simp only [List.cons_ne_nil, false_iff]
        omega
      · intro p hp
        cases ps with
        | nil => simp at hp
        | cons q qs =>
          have hic : i + c < t.length := by
            by_contra hcon
            exact absurd (hempty.mpr (by omega)) (List.cons_ne_nil q qs)
          rw [List.dropLast_cons₂] at hp
          rcases List.mem_cons.mp hp with hp | hp
          · subst hp
            rw [jsSubstring_nat, List.length_take, List.length_drop]
            omega
          · exact hlen p hp
    · have hle : t.length ≤ i := by exact_mod_cast le_of_not_lt hlt
      refine ⟨[], ?_, ?_, ?_, ?_⟩
      · simp only [textToPagesGo, hlt, if_false]
      · simp [List.drop_eq_nil_of_le hle]
      · simp [hle]
      · intro p hp; simp at hp

/-- **C4.** For every text and every chunk size `n > 0`, the pager
terminates with a page list whose concatenation is exactly the text, every
page except possibly the last having length exactly `n`; the empty text
yields the empty page list. -/
theorem textToPages_pagination :
    ∀ (text : Str) (n : Nat), 0 < n →
      ∃ ps, textToPages text (n : Int) = some ps ∧
        ps.flatten = text ∧
        (∀ p ∈ ps.dropLast, p.length = n) ∧
        (text = [] → ps = []) := by
  intro text n hn
  obtain ⟨ps, hps, hjoin, hempty, hlen⟩ :=
    textToPagesGo_spec n hn (text.length + 1) 0 text (by omega)
  refine ⟨ps, ?_, ?_, hlen, ?_⟩
  · simpa [textToPages] using hps
  · simpa using hjoin
  · intro h
    exact hempty.mpr (by simp [h])

/-- Witness for `textToPages_pagination`: the five-character text `abcde`
with chunk size 2. -/
theorem textToPages_pagination_witness :
    ∃ ps, textToPages "abcde".data (2 : Nat) = some ps ∧
      ps.flatten = "abcde".data ∧
      (∀ p ∈ ps.dropLast, p.length = 2) ∧
      ("abcde".data = [] → ps = []) :=
  textToPages_pagination "abcde".data 2 (by omega)

/-- Helper: with non-positive chunk size and nonempty text, the loop index
never reaches the length, so no amount of fuel completes the loop. -/
theorem textToPagesGo_nonpos (t : Str) (c : Int) (hc : c ≤ 0) (ht : t ≠ []) :
    ∀ (fuel : Nat) (i : Int), i ≤ 0 → textToPagesGo t c i fuel = none := by
  intro fuel
  induction fuel with
  | zero => intro i _; rfl
  | succ fuel ih =>
    intro i hi
    have hlen : 0 < t.length := List.length_pos.mpr ht
    have hlt : i < (t.length : Int) := by
      have : (1 : Int) ≤ (t.length : Int) := by exact_mod_cast hlen
      omega
    simp only [textToPagesGo, hlt, if_true, ih (i + c) (by omega)]

/-- **C9.** The pager terminates for every positive chunk size (the loop
index strictly increases each iteration, so fuel `length + 1` completes
the loop), while for chunk size `≤ 0` and nonempty text no fuel completes
it — the JavaScript loop never terminates — so `chunkSize > 0` is a
necessary precondition for totality. -/
theorem textToPages_termination :
    ∀ (text : Str) (chunkSize : Int),
      (0 < chunkSize → (textToPages text chunkSize).isSome) ∧
      (chunkSize ≤ 0 → text ≠ [] →
        ∀ fuel, textToPagesGo text chunkSize 0 fuel = none) := by
  intro text chunkSize
  constructor
  · intro hpos
    have hcs : chunkSize = ((chunkSize.toNat : Nat) : Int) := by omega
    obtain ⟨ps, hps, -, -, -⟩ :=
      textToPages_pagination text chunkSize.toNat (by omega)
    rw [hcs, hps]
    rfl
  · intro hneg hne fuel
    exact textToPagesGo_nonpos text chunkSize hneg hne fuel 0 le_rfl

/-- Witness for `textToPages_termination`: chunk size 1 terminates on
`ab`; chunk size 0 exhausts any fuel (5 shown). -/
theorem textToPages_termination_witness :
    (textToPages "ab".data (1 : Int)).isSome ∧
    textToPagesGo "ab".data 0 0 5 = none :=
  ⟨(textToPages_termination "ab".data 1).1 (by omega),
   (textToPages_termination "ab".data 0).2 le_rfl (by simp) 5⟩

/-! ## Claim C8 -/

/-- Helper: every character `digitChar` produces is a decimal digit. -/
theorem digitChar_isDigit (d : Nat) : isDigitChar (digitChar d) = true := by
  unfold digitChar
  split <;> decide

/-- Helper: every character of `natToChars n` is a decimal digit. -/
theorem natToChars_all_digits (n : Nat) : ∀ c ∈ natToChars n, isDigitChar c = true := by
  induction n using Nat.strong_induction_on with
  | _ n ih =>
    rw [natToChars]
    split_ifs with h
    · intro c hc
      rw [List.mem_singleton] at hc
      rw [hc]
      exact digitChar_isDigit n
    · intro c hc
      rcases List.mem_append.mp hc with hc | hc
      · exact ih (n / 10) (Nat.div_lt_self (by omega) (by omega)) c hc
      · rw [List.mem_singleton] at hc
        rw [hc]
        exact digitChar_isDigit (n % 10)

/-- Helper: a serialised integer contains no newline. -/
theorem intToChars_no_newline (i : Int) : '\n' ∉ intToChars i := by
  unfold intToChars
  have h : ∀ n : Nat, '\n' ∉ natToChars n := by
    intro n hn
    have := natToChars_all_digits n '\n' hn
    simp [isDigitChar] at this
  split_ifs
  · intro hmem
    rcases List.mem_cons.mp hmem with hmem | hmem
    · exact absurd hmem (by decide)
    · exact h _ hmem
  · exact h _

/-- Helper: `escChar` never emits a newline (a literal newline is escaped
to `\\n`). -/
theorem escChar_no_newline (c : Char) : '\n' ∉ escChar c := by
  unfold escChar
  split_ifs with h1 h2 h3 h4 h5
  · decide
  · decide
  · decide
  · decide
  · decide
  · simp only [List.mem_singleton]
    exact fun hh => h3 hh.symm

/-- Helper: an escaped JSON string contains no newline. -/
theorem escStr_no_newline (s : Str) : '\n' ∉ escStr s := by
  simp only [escStr, List.mem_flatMap, not_exists]
  exact fun c => fun h => escChar_no_newline c h.2

mutual
/-- Helper: the serialisation of a JSON value contains no raw newline, so
each serialised record occupies exactly one line of the emitted dataset. -/
theorem serJson_no_newline : (v : Json) → '\n' ∉ serJson v
  | .null => by decide
  | .bool true => by decide
  | .bool false => by decide
  | .num i => intToChars_no_newline i
  | .str s => by
      intro hmem
      simp only [serJson, List.mem_cons, List.mem_append, List.not_mem_nil,
        or_false] at hmem
      rcases hmem with (h | h) | h
      · exact absurd h (by decide)
      · exact escStr_no_newline s h
      · exact absurd h (by decide)
  | .arr xs => by
      intro hmem
      simp only [serJson, List.mem_cons, List.mem_append, List.not_mem_nil,
        or_false] at hmem
      rcases hmem with (h | h) | h
      · exact absurd h (by decide)
      · exact serArr_no_newline xs h
      · exact absurd h (by decide)
  | .obj kvs => by
      intro hmem
      simp only [serJson, List.mem_cons, List.mem_append, List.not_mem_nil,
        or_false] at hmem
      rcases hmem with (h | h) | h
      · exact absurd h (by decide)
      · exact serObj_no_newline kvs h
      · exact absurd h (by decide)

/-- Helper: serialised array elements contain no raw newline. -/
theorem serArr_no_newline : (xs : List Json) → '\n' ∉ serArr xs
  | [] => by decide
  | [x] => serJson_no_newline x
  | x :: y :: xs => by
      intro hmem
      simp only [serArr, List.mem_append, List.mem_cons] at hmem
      rcases hmem with h | h | h
      · exact serJson_no_newline x h
      · exact absurd h (by decide)
      · exact serArr_no_newline (y :: xs) h

/-- Helper: serialised object members contain no raw newline. -/
theorem serObj_no_newline : (kvs : List (Str × Json)) → '\n' ∉ serObj kvs
  | [] => by decide
  | [(k, v)] => by
      intro hmem
      simp only [serObj, List.mem_cons, List.mem_append] at hmem
      rcases hmem with (h | h) | h | h | h
      · exact absurd h (by decide)
      · exact escStr_no_newline k h
      · exact absurd h (by decide)
      · exact absurd h (by decide)
      · exact serJson_no_newline v h
  | (k, v) :: m :: kvs => by
      intro hmem
      simp only [serObj, List.mem_append, List.mem_cons] at hmem
      rcases hmem with ((h | h) | h | h | h) | h | h
      · exact absurd h (by decide)
      · exact escStr_no_newline k h
      · exact absurd h (by decide)
      · exact absurd h (by decide)
      · exact serJson_no_newline v h
      · exact absurd h (by decide)
      · exact serObj_no_newline (m :: kvs) h
end

/-- **C8.** For every nonempty chunk list, splitting the emitted dataset on
newlines recovers exactly the per-record `JSON.stringify` serialisations of
`{messages: [{role:"user", content:"Write a proposal section based on this
RFP section:\n\n" + requirement}, {role:"assistant", content: answer}]}`,
one per line, in record order, with no trailing metadata. -/
theorem emitJsonl_one_record_per_line :
    ∀ allFinalChunks : List (Json × Str), allFinalChunks ≠ [] →
      (emitJsonl allFinalChunks).splitOn '\n' =
        allFinalChunks.map (fun chunk => serJson (entryJson chunk)) := by
  intro chunks hne
  have hmap : ∀ l ∈ chunks.map (fun chunk => serJson (entryJson chunk)), '\n' ∉ l := by
    intro l hl
    obtain ⟨chunk, -, rfl⟩ := List.mem_map.mp hl
    exact serJson_no_newline _
  have hne' : chunks.map (fun chunk => serJson (entryJson chunk)) ≠ [] := by
    simp [hne]
  have := List.splitOn_intercalate
    (chunks.map (fun chunk => serJson (entryJson chunk))) '\n' hmap hne'
  simpa [emitJsonl, joinSep] using this

/-- Witness for `emitJsonl_one_record_per_line`: a two-record dataset. -/
theorem emitJsonl_one_record_per_line_witness :
    (emitJsonl [(Json.str "req".data, "ans".data), (Json.str "r2".data, "a2".data)]).splitOn '\n' =
      [serJson (entryJson (Json.str "req".data, "ans".data)),
       serJson (entryJson (Json.str "r2".data, "a2".data))] :=
  emitJsonl_one_record_per_line
    [(Json.str "req".data, "ans".data), (Json.str "r2".data, "a2".data)] (by simp)

/-! ## Claim C5 -/

/-- Helper: `skipWs` does nothing when the head is not whitespace. -/
theorem skipWs_cons_not_ws {c : Char} (r : Str) (h : isWsChar c = false) :
    skipWs (c :: r) = c :: r := by
  simp [skipWs, h]

/-- Helper: a literal prefix always matches itself. -/
theorem startsList_append_self : ∀ (pat rest : Str), startsList pat (pat ++ rest) = true := by
  intro pat
  induction pat with
  | nil => intro rest; rfl
  | cons p ps ih => intro rest; simp [startsList, ih]

/-- Helper: `digitVal` inverts `digitChar` on single digits. -/
theorem digitVal_digitChar (d : Nat) (h : d < 10) : digitVal (digitChar d) = d := by
  interval_cases d <;> decide

/-- Helper: string-body parsing inverts string escaping: the escaped
contents followed by the closing quote parse back to the contents. -/
theorem parseStrBody_escStr : ∀ (s rest : Str),
    parseStrBody (escStr s ++ '"' :: rest) = some (s, rest) := by
  intro s
  induction s with
  | nil =>
    intro rest
    have : escStr [] ++ '"' :: rest = '"' :: rest := by simp [escStr]
    rw [this, parseStrBody.eq_def]
    simp
  | cons c s ih =>
    intro rest
    have he : escStr (c :: s) = escChar c ++ escStr s := by simp [escStr]
    rw [he, List.append_assoc]
    unfold escChar
    split_ifs with h1 h2 h3 h4 h5
    · subst h1; simp [parseStrBody, ih]
    · subst h2; simp [parseStrBody, ih]
    · subst h3; simp [parseStrBody, ih]
    · subst h4; simp [parseStrBody, ih]
    · subst h5; simp [parseStrBody, ih]
    · rw [List.singleton_append, parseStrBody.eq_def]
      simp [h1, h2, ih]

/-- Helper: reading the decimal rendering of `n` into an accumulator shifts
the accumulator by the digit count and adds `n`. -/
theorem parseDigitsAcc_natToChars : ∀ (n acc : Nat) (rest : Str),
    parseDigitsAcc acc (natToChars n ++ rest) =
      parseDigitsAcc (acc * 10 ^ (natToChars n).length + n) rest := by
  intro n
  induction n using Nat.strong_induction_on with
  | _ n ih =>
    intro acc rest
    rw [natToChars]
    split_ifs with h
    · simp only [List.cons_append, List.nil_append, parseDigitsAcc,
        digitChar_isDigit n, if_true, digitVal_digitChar n h, List.length_singleton,
        pow_one]
      rfl
    · rw [List.append_assoc, List.cons_append, List.nil_append,
        ih (n / 10) (Nat.div_lt_self (by omega) (by omega)),
        parseDigitsAcc]
      simp only [digitChar_isDigit (n % 10), if_true,
        digitVal_digitChar (n % 10) (Nat.mod_lt n (by omega)),
        List.length_append, List.length_singleton]
      congr 1
      have hdm := Nat.div_add_mod n 10
      ring_nf
      omega

/-- Helper: a rendered natural number starts with a digit. -/
theorem natToChars_head (n : Nat) :
    ∃ c r', natToChars n = c :: r' ∧ isDigitChar c = true := by
  induction n using Nat.strong_induction_on with
  | _ n ih =>
    rw [natToChars]
    split_ifs with h
    · exact ⟨digitChar n, [], rfl, digitChar_isDigit n⟩
    · obtain ⟨c, r', heq, hd⟩ := ih (n / 10) (Nat.div_lt_self (by omega) (by omega))
      exact ⟨c, r' ++ [digitChar (n % 10)], by rw [heq]; rfl, hd⟩

/-- Helper: stop characters are not digits. -/
theorem stopChar_not_digit {c : Char} (h : stopChar c = true) : isDigitChar c = false := by
  simp only [stopChar, Bool.or_eq_true, decide_eq_true_eq] at h
  rcases h with (rfl | rfl) | rfl <;> decide

/-- Helper: digit reading stops at a stop character (or at the end). -/
theorem parseDigitsAcc_stop {rest : Str} (h : stopperB rest = true) (n : Nat) :
    parseDigitsAcc n rest = (n, rest) := by
  cases rest with
  | nil => rfl
  | cons c r =>
    have hc : stopChar c = true := by simpa [stopperB] using h
    simp [parseDigitsAcc, stopChar_not_digit hc]

/-- Helper: `parseNat` inverts `natToChars` when the following input starts
with a stop character. -/
theorem parseNat_natToChars (n : Nat) (rest : Str) (h : stopperB rest = true) :
    parseNat (natToChars n ++ rest) = some (n, rest) := by
  obtain ⟨c, r', heq, hd⟩ := natToChars_head n
  have h0 : parseDigitsAcc 0 (natToChars n ++ rest) = (n, rest) := by
    rw [parseDigitsAcc_natToChars]
    simpa using parseDigitsAcc_stop h n
  rw [heq, List.cons_append] at h0 ⊢
  simp only [parseDigitsAcc, hd, if_true] at h0
  simp only [parseNat, hd, if_true]
  rw [show digitVal c = 0 * 10 + digitVal c from by omega, h0]

/-- Helper: a digit differs from any non-digit character. -/
theorem isDigitChar_ne {c : Char} (h : isDigitChar c = true) {d : Char}
    (hd : isDigitChar d = false) : c ≠ d := by
  intro he
  rw [he, hd] at h
  exact Bool.noConfusion h

/-- Helper: digits are not whitespace. -/
theorem isDigitChar_not_ws {c : Char} (h : isDigitChar c = true) : isWsChar c = false := by
  have h1 : c ≠ ' ' := isDigitChar_ne h (by decide)
  have h2 : c ≠ '\t' := isDigitChar_ne h (by decide)
  have h3 : c ≠ '\n' := isDigitChar_ne h (by decide)
  have h4 : c ≠ '\r' := isDigitChar_ne h (by decide)
  simp [isWsChar, h1, h2, h3, h4]

/-- Helper: every serialised JSON value starts with a non-whitespace
character other than `]`. -/
theorem serJson_head (v : Json) :
    ∃ c r', serJson v = c :: r' ∧ isWsChar c = false ∧ c ≠ ']' := by
  cases v with
  | null => exact ⟨'n', ['u', 'l', 'l'], by simp only [serJson], by decide, by decide⟩
  | bool b =>
    cases b with
    | true => exact ⟨'t', ['r', 'u', 'e'], by simp only [serJson], by decide, by decide⟩
    | false =>
      exact ⟨'f', ['a', 'l', 's', 'e'], by simp only [serJson], by decide, by decide⟩
  | num i =>
    by_cases hneg : i < 0
    · exact ⟨'-', natToChars i.natAbs,
        by simp only [serJson, intToChars, hneg, if_true], by decide, by decide⟩
    · obtain ⟨c, r', heq, hd⟩ := natToChars_head i.natAbs
      exact ⟨c, r', by simp only [serJson, intToChars, hneg, if_false]; exact heq,
        isDigitChar_not_ws hd, isDigitChar_ne hd (by decide)⟩
  | str s =>
    exact ⟨'"', escStr s ++ ['"'], by simp [serJson], by decide, by decide⟩
  | arr xs =>
    exact ⟨'[', serArr xs ++ [']'], by simp [serJson], by decide, by decide⟩
  | obj kvs =>
    exact ⟨lbrace, serObj kvs ++ [rbrace], by simp [serJson], by decide, by decide⟩

/-- Helper: serialised nonempty array elements start with a non-whitespace
character other than `]` (the head of the first element). -/
theorem serArr_head (x : Json) (xs : List Json) :
    ∃ c r', serArr (x :: xs) = c :: r' ∧ isWsChar c = false ∧ c ≠ ']' := by
  obtain ⟨c, r', heq, hw, hne⟩ := serJson_head x
  cases xs with
  | nil => exact ⟨c, r', by simp [serArr, heq], hw, hne⟩
  | cons y ys => exact ⟨c, r' ++ ',' :: serArr (y :: ys), by simp [serArr, heq], hw, hne⟩

/-- Helper: serialised nonempty object members start with the opening quote
of the first key. -/
theorem serObj_head (kv : Str × Json) (kvs : List (Str × Json)) :
    ∃ tail, serObj (kv :: kvs) = '"' :: tail := by
  rcases kv with ⟨k, v⟩
  cases kvs with
  | nil => exact ⟨escStr k ++ '"' :: ':' :: serJson v, by simp [serObj]⟩
  | cons m ms =>
    exact ⟨(escStr k ++ '"' :: ':' :: serJson v) ++ ',' :: serObj (m :: ms),
      by simp [serObj]⟩

/-- Helper: parsing fuel is at least one for any value. -/
theorem jfuel_pos (v : Json) : 1 ≤ jfuel v := by
  cases v <;> simp [jfuel]

/-- Helper: parsing fuel is at least one for nonempty elements. -/
theorem jfuelElems_pos (x : Json) (xs : List Json) : 1 ≤ jfuelElems (x :: xs) := by
  have := jfuel_pos x
  simp [jfuelElems]
  omega

/-- Helper: parsing fuel is at least one for nonempty members. -/
theorem jfuelMembers_pos (kv : Str × Json) (kvs : List (Str × Json)) :
    1 ≤ jfuelMembers (kv :: kvs) := by
  have := jfuel_pos kv.2
  simp [jfuelMembers]
  omega

mutual
/-- Helper: the fuel a value needs is at most its serialised length. -/
theorem jfuel_le_serLen : (v : Json) → jfuel v ≤ (serJson v).length
  | .null => by simp [jfuel, serJson]
  | .bool true => by simp [jfuel, serJson]
  | .bool false => by simp [jfuel, serJson]
  | .num i => by
      obtain ⟨c, r', heq, -⟩ := natToChars_head i.natAbs
      simp only [jfuel, serJson, intToChars]
      split_ifs <;> simp [heq]
  | .str s => by simp [jfuel, serJson]
  | .arr xs => by
      cases xs with
      | nil => simp [jfuel, jfuelElems, serJson, serArr]
      | cons y ys =>
        have h := jfuelElems_le_serLen (y :: ys)
        simp only [jfuel, serJson, List.cons_append, List.length_cons,
          List.length_append, List.length_singleton]
        omega
  | .obj kvs => by
      cases kvs with
      | nil => simp [jfuel, jfuelMembers, serJson, serObj]
      | cons m ms =>
        have h := jfuelMembers_le_serLen (m :: ms)
        simp only [jfuel, serJson, List.cons_append, List.length_cons,
          List.length_append, List.length_singleton]
        omega

/-- Helper: the fuel array elements need is at most their serialised length
plus one. -/
theorem jfuelElems_le_serLen : (xs : List Json) → jfuelElems xs ≤ (serArr xs).length + 1
  | [] => by simp [jfuelElems, serArr]
  | [x] => by
      have := jfuel_le_serLen x
      simp only [jfuelElems, serArr]
      omega
  | x :: y :: ys => by
      have h1 := jfuel_le_serLen x
      have h2 := jfuelElems_le_serLen (y :: ys)
      simp only [jfuelElems] at h2
      simp only [jfuelElems, serArr, List.length_append, List.length_cons]
      omega

/-- Helper: the fuel object members need is at most their serialised length
plus one. -/
theorem jfuelMembers_le_serLen :
    (kvs : List (Str × Json)) → jfuelMembers kvs ≤ (serObj kvs).length + 1
  | [] => by simp [jfuelMembers, serObj]
  | [(k, v)] => by
      have := jfuel_le_serLen v
      simp only [jfuelMembers, jfuelMembers, serObj, List.length_cons,
        List.length_append]
      omega
  | (k, v) :: m :: ms => by
      have h1 := jfuel_le_serLen v
      have h2 := jfuelMembers_le_serLen (m :: ms)
      simp only [jfuelMembers] at h2
      simp only [jfuelMembers, serObj, List.length_append, List.length_cons]
      omega
end

/-- Helper: one step of the value parser on an opening bracket. -/
theorem parseVal_lbracket (f : Nat) (body : Str) :
    parseVal (f + 1) ('[' :: body) =
      (match skipWs body with
       | d :: r2 =>
         if d = ']' then some (Json.arr [], r2)
         else (parseElems f (d :: r2)).map (fun p => (Json.arr p.1, p.2))
       | [] => none) := rfl

/-- Helper: one step of the value parser on an opening brace. -/
theorem parseVal_lbrace (f : Nat) (body : Str) :
    parseVal (f + 1) (lbrace :: body) =
      (match skipWs body with
       | d :: r2 =>
         if d = rbrace then some (Json.obj [], r2)
         else (parseMembers f (d :: r2)).map (fun p => (Json.obj p.1, p.2))
       | [] => none) := rfl

/-- Helper: one step of the element parser. -/
theorem parseElems_succ (f : Nat) (cs : Str) :
    parseElems (f + 1) cs =
      (match parseVal (f + 1) cs with
       | none => none
       | some (v, r) =>
         match skipWs r with
         | d :: r2 =>
           if d = ',' then (parseElems f r2).map (fun p => (v :: p.1, p.2))
           else if d = ']' then some ([v], r2)
           else none
         | [] => none) := rfl

/-- Helper: one step of the member parser. -/
theorem parseMembers_succ (f : Nat) (cs : Str) :
    parseMembers (f + 1) cs =
      (match skipWs cs with
       | c :: r =>
         if c = '"' then
           match parseStrBody r with
           | none => none
           | some (k, r2) =>
             match skipWs r2 with
             | d :: r3 =>
               if d = ':' then
                 match parseVal (f + 1) r3 with
                 | none => none
                 | some (v, r4) =>
                   match skipWs r4 with
                   | e :: r5 =>
                     if e = ',' then (parseMembers f r5).map (fun p => ((k, v) :: p.1, p.2))
                     else if e = rbrace then some ([(k, v)], r5)
                     else none
                   | [] => none
               else none
             | [] => none
         else none
       | [] => none) := rfl

/-- Helper: the value parser dispatches a digit-headed input to the number
grammar. -/
theorem parseVal_digit (f : Nat) {c : Char} (hd : isDigitChar c = true) (r : Str) :
    parseVal (f + 1) (c :: r) =
      (parseNat (c :: r)).map (fun p => (Json.num (p.1 : Int), p.2)) := by
  have h1 : ¬c = '"' := isDigitChar_ne hd (by decide)
  have h2 : ¬c = '[' := isDigitChar_ne hd (by decide)
  have h3 : ¬c = lbrace := isDigitChar_ne hd (by decide)
  have h4 : ¬c = '-' := isDigitChar_ne hd (by decide)
  have h5 : ¬('n' = c) := fun he => isDigitChar_ne hd (d := 'n') (by decide) he.symm
  have h6 : ¬('t' = c) := fun he => isDigitChar_ne hd (d := 't') (by decide) he.symm
  have h7 : ¬('f' = c) := fun he => isDigitChar_ne hd (d := 'f') (by decide) he.symm
  have hws : isWsChar c = false := isDigitChar_not_ws hd
  show (parsers (f + 1)).1 (c :: r) = _
  simp only [parsers]
  rw [show skipWs (c :: r) = c :: r from skipWs_cons_not_ws r hws]
  simp only [h1, h2, h3, h4, if_false,
    show startsList "null".data (c :: r) = (decide ('n' = c) && startsList "ull".data r) from rfl,
    show startsList "true".data (c :: r) = (decide ('t' = c) && startsList "rue".data r) from rfl,
    show startsList "false".data (c :: r) = (decide ('f' = c) && startsList "alse".data r) from rfl,
    h5, h6, h7, decide_False, Bool.false_and, Bool.false_eq_true]

/-- Helper (parser correctness on serialised input): with fuel at least the
value's `jfuel`, the value parser inverts the serialiser, leaving any
stop-character-headed rest untouched; likewise the element and member
parsers on nonempty serialised element/member lists followed by their
closing bracket/brace. -/
theorem parse_serJson : ∀ f : Nat,
    (∀ (v : Json) (rest : Str), jfuel v ≤ f → stopperB rest = true →
      parseVal f (serJson v ++ rest) = some (v, rest)) ∧
    (∀ (x : Json) (xs : List Json) (rest : Str), jfuelElems (x :: xs) ≤ f →
      parseElems f (serArr (x :: xs) ++ ']' :: rest) = some (x :: xs, rest)) ∧
    (∀ (kv : Str × Json) (kvs : List (Str × Json)) (rest : Str),
      jfuelMembers (kv :: kvs) ≤ f →
      parseMembers f (serObj (kv :: kvs) ++ rbrace :: rest) = some (kv :: kvs, rest)) := by
  intro f
  induction f with
  | zero =>
    refine ⟨fun v rest hf _ => absurd hf (by have := jfuel_pos v; omega),
            fun x xs rest hf => absurd hf (by have := jfuelElems_pos x xs; omega),
            fun kv kvs rest hf => absurd hf (by have := jfuelMembers_pos kv kvs; omega)⟩
  | succ f ih =>
    obtain ⟨ihP, ihQ, ihR⟩ := ih
    have P : ∀ (v : Json) (rest : Str), jfuel v ≤ f + 1 → stopperB rest = true →
        parseVal (f + 1) (serJson v ++ rest) = some (v, rest) := by
      intro v rest hf hstop
      cases v with
      | null =>
        rw [show serJson Json.null = "null".data from by simp [serJson]]
        rfl
      | bool b =>
        cases b with
        | true =>
          rw [show serJson (Json.bool true) = "true".data from by simp [serJson]]
          rfl
        | false =>
          rw [show serJson (Json.bool false) = "false".data from by simp [serJson]]
          rfl
      | num i =>
        by_cases hneg : i < 0
        · rw [show serJson (Json.num i) = '-' :: natToChars i.natAbs from by
            simp [serJson, intToChars, hneg]]
          rw [List.cons_append,
            show parseVal (f + 1) ('-' :: (natToChars i.natAbs ++ rest)) =
              (parseNat (natToChars i.natAbs ++ rest)).map
                (fun p => (Json.num (-(p.1 : Int)), p.2)) from rfl,
            parseNat_natToChars _ _ hstop]
          have hi : -((i.natAbs : Nat) : Int) = i := by omega
          rw [show Option.map (fun p => (Json.num (-(p.1 : Int)), p.2))
            (some (i.natAbs, rest)) = some (Json.num (-((i.natAbs : Nat) : Int)), rest)
            from rfl, hi]
        · obtain ⟨c, r', heq, hd⟩ := natToChars_head i.natAbs
          rw [show serJson (Json.num i) = natToChars i.natAbs from by
            simp [serJson, intToChars, hneg]]
          rw [heq, List.cons_append, parseVal_digit f hd,
            ← List.cons_append, ← heq, parseNat_natToChars _ _ hstop]
          have hi : ((i.natAbs : Nat) : Int) = i := by omega
          rw [show Option.map (fun p => (Json.num (p.1 : Int), p.2))
            (some (i.natAbs, rest)) = some (Json.num ((i.natAbs : Nat) : Int), rest)
            from rfl, hi]
      | str s =>
        rw [show serJson (Json.str s) ++ rest = '"' :: (escStr s ++ '"' :: rest) from by
          simp [serJson]]
        rw [show parseVal (f + 1) ('"' :: (escStr s ++ '"' :: rest)) =
          (parseStrBody (escStr s ++ '"' :: rest)).map
            (fun p => (Json.str p.1, p.2)) from rfl]
        rw [parseStrBody_escStr]
        rfl
      | arr xs =>
        cases xs with
        | nil =>
          rw [show serJson (Json.arr []) ++ rest = '[' :: ']' :: rest from by
            simp [serJson, serArr]]
          rfl
        | cons y ys =>
          have hfe : jfuelElems (y :: ys) ≤ f + 1 := by
            simp only [jfuel] at hf
            omega
          obtain ⟨c, r', heq, hw, hne⟩ := serArr_head y ys
          rw [show serJson (Json.arr (y :: ys)) ++ rest =
            '[' :: (serArr (y :: ys) ++ ']' :: rest) from by simp [serJson]]
          rw [parseVal_lbracket, heq, List.cons_append, skipWs_cons_not_ws _ hw]
          show (if c = ']' then some (Json.arr [], r' ++ ']' :: rest)
            else (parseElems f (c :: (r' ++ ']' :: rest))).map
              (fun p => (Json.arr p.1, p.2))) = some (Json.arr (y :: ys), rest)
          rw [if_neg hne, ← List.cons_append, ← heq, ihQ y ys rest (by
            simp only [jfuel] at hf
            omega)]
          rfl
      | obj kvs =>
        cases kvs with
        | nil =>
          rw [show serJson (Json.obj []) ++ rest = lbrace :: rbrace :: rest from by
            simp [serJson, serObj]]
          rfl
        | cons m ms =>
          obtain ⟨tail, heq⟩ := serObj_head m ms
          rw [show serJson (Json.obj (m :: ms)) ++ rest =
            lbrace :: (serObj (m :: ms) ++ rbrace :: rest) from by simp [serJson]]
          rw [parseVal_lbrace, heq, List.cons_append,
            skipWs_cons_not_ws _ (by decide)]
          show (if '"' = rbrace then some (Json.obj [], tail ++ rbrace :: rest)
            else (parseMembers f ('"' :: (tail ++ rbrace :: rest))).map
              (fun p => (Json.obj p.1, p.2))) = some (Json.obj (m :: ms), rest)
          rw [if_neg (show ¬('"' : Char) = rbrace from by decide),
            ← List.cons_append, ← heq, ihR m ms rest (by
              simp only [jfuel] at hf
              omega)]
          rfl
    refine ⟨P, ?_, ?_⟩
    · intro x xs rest hf
      cases xs with
      | nil =>
        have hfx : jfuel x ≤ f + 1 := by
          simp only [jfuelElems] at hf
          omega
        rw [show serArr [x] = serJson x from by simp [serArr],
          parseElems_succ, P x (']' :: rest) hfx (by rfl)]
        rfl
      | cons y ys =>
        have hfx : jfuel x ≤ f + 1 := by
          simp only [jfuelElems] at hf
          omega
        have hfe : jfuelElems (y :: ys) ≤ f := by
          have := jfuel_pos x
          simp only [jfuelElems] at hf ⊢
          omega
        rw [show serArr (x :: y :: ys) ++ ']' :: rest =
          serJson x ++ (',' :: (serArr (y :: ys) ++ ']' :: rest)) from by
            simp [serArr],
          parseElems_succ, P x _ hfx (by rfl)]
        show (match skipWs (',' :: (serArr (y :: ys) ++ ']' :: rest)) with
          | d :: r2 =>
            if d = ',' then (parseElems f r2).map (fun p => (x :: p.1, p.2))
            else if d = ']' then some ([x], r2)
            else none
          | [] => none) = some (x :: y :: ys, rest)
        rw [skipWs_cons_not_ws _ (by decide)]
        show (parseElems f (serArr (y :: ys) ++ ']' :: rest)).map
          (fun p => (x :: p.1, p.2)) = some (x :: y :: ys, rest)
        rw [ihQ y ys rest hfe]
        rfl
    · rintro ⟨k, v⟩ kvs rest hf
      cases kvs with
      | nil =>
        have hfv : jfuel v ≤ f + 1 := by
          simp only [jfuelMembers] at hf
          omega
        rw [show serObj [(k, v)] ++ rbrace :: rest =
          '"' :: (escStr k ++ '"' :: (':' :: (serJson v ++ rbrace :: rest))) from by
            simp [serObj],
          parseMembers_succ]
        show (match parseStrBody (escStr k ++ '"' :: (':' :: (serJson v ++ rbrace :: rest))) with
          | none => none
          | some (k', r2) =>
            match skipWs r2 with
            | d :: r3 =>
              if d = ':' then
                match parseVal (f + 1) r3 with
                | none => none
                | some (v', r4) =>
                  match skipWs r4 with
                  | e :: r5 =>
                    if e = ',' then (parseMembers f r5).map (fun p => ((k', v') :: p.1, p.2))
                    else if e = rbrace then some ([(k', v')], r5)
                    else none
                  | [] => none
              else none
            | [] => none) = some ([(k, v)], rest)
        rw [parseStrBody_escStr]
        show (match parseVal (f + 1) (serJson v ++ rbrace :: rest) with
          | none => none
          | some (v', r4) =>
            match skipWs r4 with
            | e :: r5 =>
              if e = ',' then (parseMembers f r5).map (fun p => ((k, v') :: p.1, p.2))
              else if e = rbrace then some ([(k, v')], r5)
              else none
            | [] => none) = some ([(k, v)], rest)
        rw [P v (rbrace :: rest) hfv (by rfl)]
        rfl
      | cons m ms =>
        have hfv : jfuel v ≤ f + 1 := by
          simp only [jfuelMembers] at hf
          omega
        have hfm : jfuelMembers (m :: ms) ≤ f := by
          have := jfuel_pos v
          simp only [jfuelMembers] at hf ⊢
          omega
        rw [show serObj ((k, v) :: m :: ms) ++ rbrace :: rest =
          '"' :: (escStr k ++ '"' :: (':' :: (serJson v ++
            ',' :: (serObj (m :: ms) ++ rbrace :: rest)))) from by
            simp [serObj],
          parseMembers_succ]
        show (match parseStrBody (escStr k ++ '"' :: (':' :: (serJson v ++
            ',' :: (serObj (m :: ms) ++ rbrace :: rest)))) with
          | none => none
          | some (k', r2) =>
            match skipWs r2 with
            | d :: r3 =>
              if d = ':' then
                match parseVal (f + 1) r3 with
                | none => none
                | some (v', r4) =>
                  match skipWs r4 with
                  | e :: r5 =>
                    if e = ',' then (parseMembers f r5).map (fun p => ((k', v') :: p.1, p.2))
                    else if e = rbrace then some ([(k', v')], r5)
                    else none
                  | [] => none
              else none
            | [] => none) = some ((k, v) :: m :: ms, rest)
        rw [parseStrBody_escStr]
        show (match parseVal (f + 1)
            (serJson v ++ ',' :: (serObj (m :: ms) ++ rbrace :: rest)) with
          | none => none
          | some (v', r4) =>
            match skipWs r4 with
            | e :: r5 =>
              if e = ',' then (parseMembers f r5).map (fun p => ((k, v') :: p.1, p.2))
              else if e = rbrace then some ([(k, v')], r5)
              else none
            | [] => none) = some ((k, v) :: m :: ms, rest)
        rw [P v (',' :: (serObj (m :: ms) ++ rbrace :: rest)) hfv (by rfl)]
        show (parseMembers f (serObj (m :: ms) ++ rbrace :: rest)).map
          (fun p => ((k, v) :: p.1, p.2)) = some ((k, v) :: m :: ms, rest)
        rw [ihR m ms rest hfm]
        rfl

/-- Helper: the model of `JSON.parse` inverts the model of
`JSON.stringify`. -/
theorem jsonParse_serJson (v : Json) : jsonParse (serJson v) = some v := by
  have hP := (parse_serJson ((serJson v).length + 1)).1 v []
    (le_trans (jfuel_le_serLen v) (by omega)) rfl
  rw [List.append_nil] at hP
  unfold jsonParse
  rw [hP]
  rfl

/-- Helper: `trim` does nothing when neither end is whitespace. -/
theorem jsTrim_eq_self {cs : Str} (h1 : ∀ c, cs.head? = some c → isWsChar c = false)
    (h2 : ∀ c, cs.getLast? = some c → isWsChar c = false) : jsTrim cs = cs := by
  cases cs with
  | nil => rfl
  | cons a l =>
    have ha := h1 a rfl
    unfold jsTrim
    rw [show List.dropWhile isWsChar (a :: l) = skipWs (a :: l) from rfl,
      skipWs_cons_not_ws l ha]
    cases hr : (a :: l).reverse with
    | nil => simp at hr
    | cons b m =>
      have hb : (a :: l).getLast? = some b := by
        rw [← List.head?_reverse, hr]
        rfl
      rw [show List.dropWhile isWsChar (b :: m) = skipWs (b :: m) from rfl,
        skipWs_cons_not_ws m (h2 b hb), ← hr, List.reverse_reverse]

/-- Helper: fence stripping does nothing to a bare serialised array. -/
theorem stripFences_eq_self_arr (A : Str) :
    stripFences (('[' :: A) ++ [']']) = ('[' :: A) ++ [']'] := by
  show (if startsList ['`', '`', '`'] (('[' :: A) ++ [']']).reverse then
      (((('[' :: A) ++ [']']).reverse.drop 3).dropWhile isWsChar).reverse
    else ('[' :: A) ++ [']']) = ('[' :: A) ++ [']']
  have hrev : (('[' :: A) ++ [']']).reverse = ']' :: (A.reverse ++ ['[']) := by
    simp [List.reverse_append, List.reverse_cons]
  rw [hrev]
  rfl

/-- Helper: fence stripping removes the markdown fences around a serialised
array. -/
theorem stripFences_fenceWrapped_arr (A : Str) :
    stripFences (fenceWrapped (('[' :: A) ++ [']'])) = ('[' :: A) ++ [']'] := by
  show (if startsList ['`', '`', '`'] ((('[' :: A) ++ [']']) ++ "\n```".data).reverse then
      ((((('[' :: A) ++ [']']) ++ "\n```".data).reverse.drop 3).dropWhile isWsChar).reverse
    else (('[' :: A) ++ [']']) ++ "\n```".data) = ('[' :: A) ++ [']']
  have hrev : ((('[' :: A) ++ [']']) ++ "\n```".data).reverse =
      '`' :: '`' :: '`' :: '\n' :: (']' :: (A.reverse ++ ['['])) := by
    rw [List.reverse_append, show ("\n```".data.reverse = ['`', '`', '`', '\n']) from rfl]
    simp [List.reverse_append, List.reverse_cons]
  rw [hrev]
  show (']' :: (A.reverse ++ ['['])).reverse = ('[' :: A) ++ [']']
  simp [List.reverse_cons, List.reverse_append]

/-- **C5.** `safeJsonParse` round-trips serialised JSON arrays; a response
wrapped in markdown code fences parses to the same value as the bare JSON;
and any input whose (trimmed, fence-stripped) text fails to parse yields the
empty array — by construction the function is total, so it never raises. -/
theorem safeJsonParse_roundtrip :
    (∀ xs : List Json, safeJsonParse (serJson (Json.arr xs)) = Json.arr xs) ∧
    (∀ xs : List Json, safeJsonParse (fenceWrapped (serJson (Json.arr xs))) = Json.arr xs) ∧
    (∀ s : Str, jsonParse (stripFences (jsTrim s)) = none →
      safeJsonParse s = Json.arr []) := by
  have harr : ∀ xs : List Json, serJson (Json.arr xs) = ('[' :: serArr xs) ++ [']'] := by
    intro xs
    simp [serJson]
  refine ⟨?_, ?_, ?_⟩
  · intro xs
    have h1 : ∀ c, (('[' :: serArr xs) ++ [']']).head? = some c → isWsChar c = false := by
      intro c hc
      have : c = '[' := by
        rw [List.cons_append, List.head?_cons] at hc
        exact (Option.some.injEq _ _ ▸ hc).symm
      rw [this]; rfl
    have h2 : ∀ c, (('[' :: serArr xs) ++ [']']).getLast? = some c → isWsChar c = false := by
      intro c hc
      have : c = ']' := by
        rw [List.getLast?_concat] at hc
        exact (Option.some.injEq _ _ ▸ hc).symm
      rw [this]; rfl
    unfold safeJsonParse
    rw [harr xs, jsTrim_eq_self h1 h2, stripFences_eq_self_arr, ← harr xs,
      jsonParse_serJson]
  · intro xs
    have hshape : fenceWrapped (('[' :: serArr xs) ++ [']']) =
        (("```json\n".data ++ (('[' :: serArr xs) ++ [']'])) ++ "\n``".data) ++ ['`'] := by
      simp [fenceWrapped]
    have h1 : ∀ c, (fenceWrapped (('[' :: serArr xs) ++ [']'])).head? = some c →
        isWsChar c = false := by
      intro c hc
      have : c = '`' := by
        simp only [fenceWrapped, List.append_assoc, List.cons_append,
          List.head?_cons] at hc
        exact (Option.some.injEq _ _ ▸ hc).symm
      rw [this]; rfl
    have h2 : ∀ c, (fenceWrapped (('[' :: serArr xs) ++ [']'])).getLast? = some c →
        isWsChar c = false := by
      intro c hc
      have : c = '`' := by
        rw [hshape, List.getLast?_concat] at hc
        exact (Option.some.injEq _ _ ▸ hc).symm
      rw [this]; rfl
    unfold safeJsonParse
    rw [harr xs, jsTrim_eq_self h1 h2, stripFences_fenceWrapped_arr, ← harr xs,
      jsonParse_serJson]
  · intro s h
    unfold safeJsonParse
    rw [h]

/-- Witness for `safeJsonParse_roundtrip`: the one-element array `[1]`,
bare and fence-wrapped, and the non-JSON input `not json`. -/
theorem safeJsonParse_roundtrip_witness :
    safeJsonParse (serJson (Json.arr [Json.num 1])) = Json.arr [Json.num 1] ∧
    safeJsonParse (fenceWrapped (serJson (Json.arr [Json.num 1]))) = Json.arr [Json.num 1] ∧
    safeJsonParse "not json".data = Json.arr [] :=
  ⟨safeJsonParse_roundtrip.1 [Json.num 1],
   safeJsonParse_roundtrip.2.1 [Json.num 1],
   safeJsonParse_roundtrip.2.2 "not json".data rfl⟩
